import Mathlib

/-!
Verification of the tinyos kernel specification against its source.

Shallow embedding of the relevant kernel subsystems:
* `src/src/spinlock.rs` — spinlock with interrupt gating (`push_cli` / `pop_cli`);
* `src/kernel/src/pipe.rs` — the pipe ring buffer;
* `src/src/proc.rs` — `exit`, `fork`, `wait` over the process table;
* `src/kernel/src/file.rs` — the system-wide file table;
* `src/kernel/src/growproc.rs`, `src/kernel/src/vm.rs` — user growth and page tables;
* `src/kernel/src/bio.rs` — the buffer cache;
* `src/src/fs.rs` — file-system initialization;
* `src/kernel/src/virtio.rs` — block-request completion;
* `src/kernel/src/syscall.rs` — `sys_open`.

Machine integers are modelled as `Nat` (with explicit `%` where the source
wraps); fallible code returns `Option`; `panic!` is `none`.

The file is organized as definitions first, then the theorems about them.
-/

namespace TinyOS

/-! ## Definitions -/

/-! ### Spinlock and interrupt gating (src/src/spinlock.rs, src/src/proc.rs `Cpu`)

`CpuIF` models the per-CPU fields `ncli` and `intena` of `Cpu` together with
the hardware interrupt-enable flag IF (bit 0x200 of rflags). -/

structure CpuIF where
  ncli : Nat
  intena : Bool
  ifFlag : Bool
  deriving DecidableEq

/-- `push_cli` (spinlock.rs:72-80): read rflags, `cli`, snapshot IF into
`intena` on the first nesting level, bump `ncli`. -/
def push_cli (c : CpuIF) : CpuIF :=
  { ncli := c.ncli + 1
    intena := if c.ncli = 0 then c.ifFlag else c.intena
    ifFlag := false }

/-- `pop_cli` (spinlock.rs:82-95): panic if IF is set or `ncli` is zero;
decrement `ncli`; `sti` when it reaches 0 and `intena` was set.
`none` models the panics. -/
def pop_cli (c : CpuIF) : Option CpuIF :=
  if c.ifFlag then none
  else if c.ncli = 0 then none
  else
    let n := c.ncli - 1
    some { ncli := n, intena := c.intena, ifFlag := decide (n = 0) && c.intena }

/-- One CPU together with the number of spinlock guards currently alive on it.
`held` counts `Spinlock::lock` calls whose `SpinlockGuard` has not been
dropped yet. -/
structure SpinCpu where
  cpu : CpuIF
  held : Nat

/-- The interrupt-relevant transitions of one CPU:
`lock` is `Spinlock::lock` (spinlock.rs:28-45, `push_cli` then acquire);
`unlock` is `SpinlockGuard::drop` (spinlock.rs:65-70, release then `pop_cli`);
`push_only` / `pop_only` are bare `push_cli` / `pop_cli` pairs made outside a
lock region (as in `mycpu` callers), where a bare pop always matches a bare
push, so `held < ncli` when it runs. -/
inductive SpinStep : SpinCpu → SpinCpu → Prop
  | lock (s : SpinCpu) : SpinStep s ⟨push_cli s.cpu, s.held + 1⟩
  | unlock (s : SpinCpu) (c2 : CpuIF) (hh : 0 < s.held)
      (hp : pop_cli s.cpu = some c2) : SpinStep s ⟨c2, s.held - 1⟩
  | push_only (s : SpinCpu) : SpinStep s ⟨push_cli s.cpu, s.held⟩
  | pop_only (s : SpinCpu) (c2 : CpuIF) (hh : s.held < s.cpu.ncli)
      (hp : pop_cli s.cpu = some c2) : SpinStep s ⟨c2, s.held⟩

/-- Boot state of a CPU: `ncli = 0`, `intena = false` (proc.rs `Cpu::new`),
no lock held, with `intr` the hardware IF at boot. -/
def spinInit (intr : Bool) : SpinCpu := ⟨⟨0, false, intr⟩, 0⟩

def SpinReach (intr : Bool) (s : SpinCpu) : Prop :=
  Relation.ReflTransGen SpinStep (spinInit intr) s

/-- The inductive invariant: every held lock accounts for one `ncli` level,
and interrupts are hard-disabled whenever `ncli` is positive. -/
def SpinInv (s : SpinCpu) : Prop :=
  s.held ≤ s.cpu.ncli ∧ (s.cpu.ifFlag = true → s.cpu.ncli = 0)

/-! ### Pipe (src/kernel/src/pipe.rs) -/

def PIPESIZE : Nat := 512

/-- `PipeData` (pipe.rs:67-73): 512-byte ring, cumulative read/write
counters, open flags. -/
structure PipeData where
  data : Nat → Nat
  nread : Nat
  nwrite : Nat
  readopen : Bool
  writeopen : Bool

/-- `PipeData::new` (pipe.rs:75-85). -/
def pipeNew : PipeData :=
  { data := fun _ => 0, nread := 0, nwrite := 0, readopen := true, writeopen := true }

/-- One chunk of `pipewrite` (pipe.rs:134-157, the not-full branch executed
under the pipe lock): `chunk = min(n, space, PIPESIZE - idx)`, copy the user
bytes `src` into `data[idx..idx+chunk]`, advance `nwrite`. -/
def writeChunk (p : PipeData) (n : Nat) (src : Nat → Nat) : PipeData :=
  let idx := p.nwrite % PIPESIZE
  let space := PIPESIZE - (p.nwrite - p.nread)
  let chunk := min (min n space) (PIPESIZE - idx)
  { p with
    data := fun i => if idx ≤ i ∧ i < idx + chunk then src (i - idx) else p.data i
    nwrite := p.nwrite + chunk }

/-- One chunk of `piperead` (pipe.rs:182-205, executed under the pipe lock
with data available): `chunk = min(n, available, PIPESIZE - idx)`, advance
`nread`. -/
def readChunk (p : PipeData) (n : Nat) : PipeData :=
  let available := p.nwrite - p.nread
  let chunk := min (min n available) (PIPESIZE - p.nread % PIPESIZE)
  { p with nread := p.nread + chunk }

/-- `pipeclose` (pipe.rs:87-113): flip the corresponding open flag. -/
def pipecloseStep (p : PipeData) (writable : Bool) : PipeData :=
  if writable then { p with writeopen := false } else { p with readopen := false }

/-- The atomic (lock-held) segments of the pipe operations.  `pipewrite`
writes a chunk only when `readopen` holds, bytes remain, and the ring is not
full (pipe.rs:124-134); `piperead` drains a chunk only when `nread < nwrite`
(pipe.rs:182); sleeping and waking leave the pipe state unchanged, so an
arbitrary interleaving of operations is a path in this relation. -/
inductive PipeStep : PipeData → PipeData → Prop
  | write (p : PipeData) (n : Nat) (src : Nat → Nat) (hopen : p.readopen = true)
      (hn : 0 < n) (hfull : p.nwrite ≠ p.nread + PIPESIZE) :
      PipeStep p (writeChunk p n src)
  | read (p : PipeData) (n : Nat) (hn : 0 < n) (hne : p.nread < p.nwrite) :
      PipeStep p (readChunk p n)
  | close (p : PipeData) (w : Bool) : PipeStep p (pipecloseStep p w)

/-- The pipe invariant `0 ≤ nwrite − nread ≤ PIPESIZE`, stated over `Nat`
as `nread ≤ nwrite ∧ nwrite ≤ nread + PIPESIZE`. -/
def PipeInv (p : PipeData) : Prop :=
  p.nread ≤ p.nwrite ∧ p.nwrite ≤ p.nread + PIPESIZE

/-! ### File table (src/kernel/src/file.rs) -/

inductive FileTypeM where
  | noneT | pipeT | inodeT | deviceT
  deriving DecidableEq

/-- In-memory ext2 inode fields that `sys_open` consults (`i_mode`,
`i_block[0]`). -/
structure InodeM where
  i_mode : Nat
  i_block0 : Nat
  deriving DecidableEq

/-- `File` (file.rs:15-25).  The `&'static Inode` pointer is modelled by
carrying the inode record; the pipe pointer by an abstract address. -/
structure FileM where
  ftype : FileTypeM
  refcnt : Nat
  readable : Bool
  writable : Bool
  pipeRef : Option Nat
  ip : Option InodeM
  off : Nat
  major : Nat
  deriving DecidableEq

/-- `File::new` (file.rs:27-40). -/
def fileNew : FileM :=
  { ftype := .noneT, refcnt := 0, readable := false, writable := false,
    pipeRef := none, ip := none, off := 0, major := 0 }

def NFILE : Nat := 100

/-- `FileTable` (file.rs:42-51): 100 slots. -/
structure FileTableM where
  files : Fin 100 → FileM

/-- `filealloc` (file.rs:53-62): first slot with `refcnt == 0` gets
`refcnt = 1`. -/
def filealloc (ft : FileTableM) : Option (FileTableM × Fin 100) :=
  match (List.finRange 100).find? (fun i => decide ((ft.files i).refcnt = 0)) with
  | some i =>
      some (⟨Function.update ft.files i { ft.files i with refcnt := 1 }⟩, i)
  | none => none

/-- `filedup` (file.rs:64-75): panic (`none`) when `refcnt < 1`, else bump
the refcnt. -/
def filedup (ft : FileTableM) (i : Fin 100) : Option FileTableM :=
  if (ft.files i).refcnt < 1 then none
  else some ⟨Function.update ft.files i
    { ft.files i with refcnt := (ft.files i).refcnt + 1 }⟩

/-- `fileclose` (file.rs:77-102): panic when `refcnt < 1`; decrement; when it
reaches 0, clear the slot (`f_type = None`, `ip = None`).  The `iput` /
`pipeclose` calls act on the inode cache and the pipe, not on this table. -/
def fileclose (ft : FileTableM) (i : Fin 100) : Option FileTableM :=
  if (ft.files i).refcnt < 1 then none
  else
    let f := { ft.files i with refcnt := (ft.files i).refcnt - 1 }
    if 0 < f.refcnt then some ⟨Function.update ft.files i f⟩
    else some ⟨Function.update ft.files i { f with ftype := .noneT, ip := none }⟩

/-! ### Process table (src/src/proc.rs) -/

inductive ProcState where
  | UNUSED | EMBRYO | SLEEPING | RUNNABLE | RUNNING | ZOMBIE
  deriving DecidableEq

def NPROC : Nat := 64

/-- Per-process open-file slots (`NFILE = 16` in src/src/proc.rs:37). -/
def NOFILE : Nat := 16

/-- `Process` (proc.rs:40-52).  Pointers are abstract addresses (`0` is
null); `ofile` entries are file-table indices; `parent` is the parent's
process-table index; a process-slot address is its index. -/
structure ProcessM where
  state : ProcState
  kstack : Nat
  pgdir : Nat
  pid : Nat
  chan : Nat
  name : Fin 16 → Nat
  ofile : Fin 16 → Option Nat
  parent : Option Nat
  killed : Bool

/-- `wakeup1` (proc.rs:591-602): flip every process sleeping on the parent
pointer channel to RUNNABLE. -/
def wakeup1 (procs : Fin 64 → ProcessM) (chan : Option Nat) : Fin 64 → ProcessM :=
  match chan with
  | none => procs
  | some c => fun i =>
      if (procs i).state = .SLEEPING ∧ (procs i).chan = c then
        { procs i with state := .RUNNABLE }
      else procs i

/-- `exit` (proc.rs:509-531): the "Close all open files" loop is commented
out in the source, so the file table passes through untouched; wake the
parent, set state ZOMBIE (then `sched`, which never returns here). -/
def exitStep (procs : Fin 64 → ProcessM) (cur : Fin 64) (ft : FileTableM) :
    (Fin 64 → ProcessM) × FileTableM :=
  let procs1 := wakeup1 procs (procs cur).parent
  (Function.update procs1 cur { procs1 cur with state := .ZOMBIE }, ft)

/-- The open-file copy loop of `fork` (proc.rs:483-489): `Some` entries of
the parent are copied into the child slot verbatim; the `filedup` call is a
TODO in the source, so no refcnt is touched. -/
def forkCopyFiles (parent child : Fin 16 → Option Nat) : Fin 16 → Option Nat :=
  fun fd =>
    match parent fd with
    | some f => some f
    | none => child fd

/-- The tail of `fork` (proc.rs:483-498): copy open files (without
`filedup`), copy the name, record the parent, mark RUNNABLE.  The file table
is never touched by `fork`. -/
def forkFinish (procs : Fin 64 → ProcessM) (cur np : Fin 64) (ft : FileTableM) :
    (Fin 64 → ProcessM) × FileTableM :=
  let c := procs cur
  let n0 := procs np
  let n1 := { n0 with
    ofile := forkCopyFiles c.ofile n0.ofile
    name := c.name
    parent := some cur.val
    state := .RUNNABLE }
  (Function.update procs np n1, ft)

/-- A concrete parent process: RUNNING, fd 0 open on file-table slot 3. -/
def procParent : ProcessM :=
  { state := .RUNNING, kstack := 0xFFFFFFFF80005000, pgdir := 0xFFFFFFFF80006000,
    pid := 2, chan := 0, name := fun _ => 0,
    ofile := fun fd => if fd = (0 : Fin 16) then some 3 else none,
    parent := some 0, killed := false }

/-- A concrete free child slot. -/
def procFree : ProcessM :=
  { state := .UNUSED, kstack := 0, pgdir := 0, pid := 0, chan := 0,
    name := fun _ => 0, ofile := fun _ => none, parent := none, killed := false }

def procsC4 : Fin 64 → ProcessM :=
  fun i => if i = (1 : Fin 64) then procParent else procFree

/-- File table for the C4 run: slot 3 open with `refcnt = 1`. -/
def ftC4 : FileTableM :=
  ⟨fun i => if i = (3 : Fin 100) then { fileNew with ftype := .inodeT, refcnt := 1 } else fileNew⟩

/-! ### `wait` and the frame allocator (src/src/proc.rs, src/src/allocator.rs) -/

/-- The frame allocator (allocator.rs:3-47): free frames as a list of
addresses (the embedded `Run.next` pointers), plus frame contents at u64
granularity (`kfree` fills a frame with 0x01 bytes, `kalloc` zeroes it). -/
structure AllocM where
  free : List Nat
  heap : Nat → Nat → Nat

/-- `Allocator::kfree` (allocator.rs:26-33). -/
def kfree (m : AllocM) (addr : Nat) : AllocM :=
  { free := addr :: m.free
    heap := Function.update m.heap addr (fun _ => 0x0101010101010101) }

/-- `Allocator::kalloc` (allocator.rs:35-46): pop the freelist head, zero the
frame; null (`none`) when empty. -/
def kalloc (m : AllocM) : Option (Nat × AllocM) :=
  match m.free with
  | [] => none
  | a :: rest => some (a, { free := rest, heap := Function.update m.heap a (fun _ => 0) })

inductive WaitOutcome where
  | found (pid : Nat) | retMinusOne | sleepOn
  deriving DecidableEq

/-- The child scan of one `wait` loop iteration (proc.rs:542-565): the first
ZOMBIE child in table order, if any. -/
def waitFindZombie (procs : Fin 64 → ProcessM) (cur : Fin 64) : Option (Fin 64) :=
  (List.finRange 64).find? (fun i =>
    decide ((procs i).parent = some cur.val) && decide ((procs i).state = .ZOMBIE))

def waitHaveKids (procs : Fin 64 → ProcessM) (cur : Fin 64) : Bool :=
  (List.finRange 64).any (fun i => decide ((procs i).parent = some cur.val))

/-- One iteration of `wait`'s loop (proc.rs:533-589).  On a ZOMBIE child the
source only nulls `kstack` and `pgdir` and resets the slot — the
`kfree(p.kstack)` / `freevm(p.pgdir)` calls are commented out, so the
allocator passes through untouched.  With no children (or killed), −1.
Otherwise sleep on the caller's own slot address. -/
def waitIter (procs : Fin 64 → ProcessM) (cur : Fin 64) (alloc : AllocM) :
    (Fin 64 → ProcessM) × AllocM × WaitOutcome :=
  match waitFindZombie procs cur with
  | some i =>
      let p := procs i
      let cleaned : ProcessM :=
        { p with kstack := 0, pgdir := 0, state := .UNUSED, pid := 0,
                 parent := none, name := fun _ => 0, killed := false }
      (Function.update procs i cleaned, alloc, .found p.pid)
  | none =>
      if ¬ waitHaveKids procs cur = true ∨ (procs cur).killed = true then
        (procs, alloc, .retMinusOne)
      else
        (Function.update procs cur
          { procs cur with chan := cur.val, state := .SLEEPING }, alloc, .sleepOn)

/-- Process table for the C5 run: slot 0 is the waiting parent, slot 1 a
ZOMBIE child with pid 7 owning a kernel stack and a page-table root. -/
def procsC5 : Fin 64 → ProcessM :=
  fun i =>
    if i = (0 : Fin 64) then
      { procFree with state := .RUNNING, pid := 2 }
    else if i = (1 : Fin 64) then
      { procFree with state := .ZOMBIE, pid := 7, parent := some 0,
                      kstack := 0xFFFFFFFF80005000, pgdir := 0xFFFFFFFF80006000 }
    else procFree

def allocC5 : AllocM := { free := [], heap := fun _ _ => 0 }

/-- A process table in which the caller has no children at all. -/
def procsNoKids : Fin 64 → ProcessM := fun _ => procFree

/-! ### Buffer cache (src/kernel/src/bio.rs) -/

def NBUF : Nat := 30

/-- `Buf` (bio.rs:7-17). -/
structure BufM where
  valid : Bool
  disk : Bool
  dev : Nat
  blockno : Nat
  refcnt : Nat
  prev : Nat
  next : Nat
  data : Nat → Nat

/-- `Buf::new` (bio.rs:19-32). -/
def bufNew : BufM :=
  { valid := false, disk := false, dev := 0, blockno := 0, refcnt := 0,
    prev := 0, next := 0, data := fun _ => 0 }

/-- `Bcache` (bio.rs:35-46). -/
structure BcacheM where
  bufs : Fin 30 → BufM
  head : Nat

/-- The cache state right after `binit` (bio.rs:48-68): all slots are fresh
`Buf::new` buffers — in particular all carry `(dev, blockno) = (0, 0)` —
linked into a circular LRU list. -/
def binitState : BcacheM :=
  { bufs := fun i =>
      { bufNew with next := (i.val + 1) % 30, prev := (i.val + 30 - 1) % 30 }
    head := 0 }

/-- The lookup scan of `bget` (bio.rs:119-124): first slot whose
`(dev, blockno)` matches. -/
def bgetFind (c : BcacheM) (dev bn : Nat) : Option (Fin 30) :=
  (List.finRange 30).find? (fun i =>
    decide ((c.bufs i).dev = dev) && decide ((c.bufs i).blockno = bn))

/-- The recycling scan of `bget` (bio.rs:127-135): first slot with
`refcnt == 0`. -/
def bgetFree (c : BcacheM) : Option (Fin 30) :=
  (List.finRange 30).find? (fun i => decide ((c.bufs i).refcnt = 0))

/-- `bget` (bio.rs:114-138): hit bumps `refcnt`; miss re-homes a free slot
with `valid = false`, `refcnt = 1`; `none` is the "no buffers" panic. -/
def bget (c : BcacheM) (dev bn : Nat) : Option (BcacheM × Fin 30) :=
  match bgetFind c dev bn with
  | some i =>
      some (⟨Function.update c.bufs i
        { c.bufs i with refcnt := (c.bufs i).refcnt + 1 }, c.head⟩, i)
  | none =>
      match bgetFree c with
      | some i =>
          some (⟨Function.update c.bufs i
            { c.bufs i with dev := dev, blockno := bn, valid := false, refcnt := 1 },
            c.head⟩, i)
      | none => none

/-- `brelse` (bio.rs:109-112). -/
def brelse (c : BcacheM) (b : Fin 30) : BcacheM :=
  ⟨Function.update c.bufs b { c.bufs b with refcnt := (c.bufs b).refcnt - 1 }, c.head⟩

/-- `bwrite` (bio.rs:97-107): push the data to the device, mark up to date. -/
def bwrite (c : BcacheM) (b : Fin 30) : BcacheM :=
  ⟨Function.update c.bufs b { c.bufs b with valid := true }, c.head⟩

/-- `bread` (bio.rs:71-95): `bget`, then on an invalid buffer fetch the block
from the device (`dsk` abstracts `virtio::read_block` of sector `bn * 2`)
and mark it valid. -/
def bread (c : BcacheM) (dsk : Nat → Nat → Nat) (dev bn : Nat) :
    Option (BcacheM × Fin 30) :=
  match bget c dev bn with
  | none => none
  | some (c1, b) =>
      if (c1.bufs b).valid then some (c1, b)
      else some (⟨Function.update c1.bufs b
        { c1.bufs b with data := dsk bn, valid := true }, c1.head⟩, b)

/-- The buffer-cache operations as a step relation. -/
inductive BioStep : BcacheM → BcacheM → Prop
  | bget_step (c : BcacheM) (dev bn : Nat) (c2 : BcacheM) (i : Fin 30)
      (h : bget c dev bn = some (c2, i)) : BioStep c c2
  | bread_step (c : BcacheM) (dsk : Nat → Nat → Nat) (dev bn : Nat)
      (c2 : BcacheM) (i : Fin 30) (h : bread c dsk dev bn = some (c2, i)) :
      BioStep c c2
  | brelse_step (c : BcacheM) (b : Fin 30) : BioStep c (brelse c b)
  | bwrite_step (c : BcacheM) (b : Fin 30) : BioStep c (bwrite c b)

/-- States reachable from the post-`binit` cache. -/
def BioReach (c : BcacheM) : Prop :=
  Relation.ReflTransGen BioStep binitState c

/-- The amended uniqueness invariant: two distinct slots may carry the same
`(dev, blockno)` pair only if that pair is the `(0, 0)` placeholder that
`Buf::new` leaves in never-re-homed slots. -/
def BcacheInv (c : BcacheM) : Prop :=
  ∀ i j : Fin 30, i ≠ j → (c.bufs i).dev = (c.bufs j).dev →
    (c.bufs i).blockno = (c.bufs j).blockno →
    (c.bufs i).dev = 0 ∧ (c.bufs i).blockno = 0

/-! ### File-system initialization (src/src/fs.rs) -/

/-- `SuperBlock` (fs.rs:14-25): eight u32 fields. -/
structure SuperBlockM where
  magic : Nat
  size : Nat
  nblocks : Nat
  ninodes : Nat
  nlog : Nat
  logstart : Nat
  inodestart : Nat
  bmapstart : Nat
  deriving DecidableEq

/-- `FSMAGIC` (fs.rs:4). -/
def FSMAGIC : Nat := 0x10203040

/-- The superblock copy-out of `fsinit` (fs.rs:112-119): `bread(dev, 1)` and
reinterpretation of the first 8 u32 words of block 1.  `dsk bn w` is word `w`
of block `bn` as delivered by the buffer cache. -/
def readSB (dsk : Nat → Nat → Nat) : SuperBlockM :=
  ⟨dsk 1 0, dsk 1 1, dsk 1 2, dsk 1 3, dsk 1 4, dsk 1 5, dsk 1 6, dsk 1 7⟩

/-- `fsinit` (fs.rs:100-128): read the superblock from block 1 and panic
(`none`) unless `sb.magic == FSMAGIC`. -/
def fsinit (dsk : Nat → Nat → Nat) : Option SuperBlockM :=
  let sb := readSB dsk
  if sb.magic ≠ FSMAGIC then none else some sb

/-- A disk whose superblock magic is the ext2 magic 0xEF53. -/
def diskMagicEF53 : Nat → Nat → Nat := fun _ _ => 0xEF53

/-! ### Virtio-block completion (src/kernel/src/virtio.rs) -/

/-- `VirtioDriver` (virtio.rs:70-78); the descriptor table is represented by
its `next` links, which is all the completion path touches. -/
structure VirtioDriverM where
  freeHead : Nat
  usedIdx : Nat
  availIdx : Nat
  descNext : Nat → Nat

/-- `free_desc` (virtio.rs:352-357). -/
def free_desc (d : VirtioDriverM) (idx : Nat) : VirtioDriverM :=
  { d with descNext := Function.update d.descNext idx d.freeHead, freeHead := idx }

/-- The completion/cleanup path of `do_block_io` (virtio.rs:322-340), entered
once the used ring matched `headIdx`: advance `used_idx` (u16, wrapping),
wake peers, read the descriptor chain, return the three descriptors.
`statusVal` is the 1-byte status slot the device wrote; the second component
collects every status value the driver reports or logs on this path — the
source never reads `status_val` again, so nothing is ever reported. -/
def completionCleanup (d : VirtioDriverM) (headIdx statusVal : Nat) :
    VirtioDriverM × List Nat :=
  let d1 := { d with usedIdx := (d.usedIdx + 1) % 65536 }
  let dataIdx := d1.descNext headIdx
  let statusIdx := d1.descNext dataIdx
  let d2 := free_desc d1 headIdx
  let d3 := free_desc d2 dataIdx
  let d4 := free_desc d3 statusIdx
  (d4, [])

/-! ### Virtual memory (src/kernel/src/vm.rs, src/kernel/src/util.rs)

Page-table frames live in the allocator's `heap` (frame virtual address →
entry index → u64 entry value), so `walk` / `map_pages` / `uvm_alloc` thread
an `AllocM` exactly as the source threads `&mut Allocator`.  The bounded
`for` loop of `walk` is structural; the `while` loops of `map_pages`,
`uvm_alloc` and `uvm_dealloc` take a fuel parameter (any fuel at least the
number of iterations gives the source's behavior; fuel exhaustion is
`none` / failure). -/

def PG_SIZE : Nat := 4096

def PG_SIZE_2M : Nat := 0x200000

/-- `KERNBASE` (util.rs:2). -/
def KERNBASE : Nat := 0xFFFFFFFF80000000

/-- `v2p` (util.rs:17-19). -/
def v2p (x : Nat) : Nat := x - KERNBASE

/-- `p2v` (util.rs:13-15). -/
def p2v (x : Nat) : Nat := x + KERNBASE

def ADDR_MASK : Nat := 0x000ffffffffff000

def FLAGS_MASK : Nat := 0xfff

def PTE_P : Nat := 1

def PTE_W : Nat := 2

def PTE_U : Nat := 4

def PTE_HUGE : Nat := 0x80

/-- `PageTableEntry::new` (vm.rs:211-213). -/
def pteNew (addr flags : Nat) : Nat := (addr &&& ADDR_MASK) ||| (flags &&& FLAGS_MASK)

/-- `PageTableEntry::addr` (vm.rs:215-217). -/
def pteAddr (e : Nat) : Nat := e &&& ADDR_MASK

/-- `PageTableEntry::is_present` (vm.rs:223-225). -/
def pteIsPresent (e : Nat) : Bool := decide (e &&& PTE_P ≠ 0)

/-- Write one page-table entry in the heap. -/
def heapSet (m : AllocM) (table idx v : Nat) : AllocM :=
  { m with heap := Function.update m.heap table (Function.update (m.heap table) idx v) }

/-- `pgrounddown` (vm.rs:267-269): `x & !(PG_SIZE - 1)`, i.e. clear the low
12 bits (written as div/mul on `Nat`). -/
def pgrounddown (x : Nat) : Nat := x / PG_SIZE * PG_SIZE

/-- `pgroundup` (vm.rs:271-273). -/
def pgroundup (x : Nat) : Nat := (x + PG_SIZE - 1) / PG_SIZE * PG_SIZE

/-- One iteration of `walk`'s descent loop (vm.rs:155-179): at `level`, read
entry `(va >> (12 + 9*level)) & 0x1FF` of `table`; follow it if present,
else allocate a fresh intermediate table (flags Present|Writable|User) when
`alloc` is set. -/
def walkStep (m : AllocM) (table va : Nat) (alloc : Bool) (level : Nat) :
    AllocM × Option Nat :=
  let idx := (va >>> (12 + 9 * level)) &&& 0x1FF
  let pte := m.heap table idx
  if pteIsPresent pte then (m, some (p2v (pteAddr pte)))
  else if alloc = false then (m, none)
  else
    match kalloc m with
    | none => (m, none)
    | some (newTable, m1) =>
        let pa := v2p newTable
        (heapSet m1 table idx (pteNew pa (PTE_P ||| PTE_W ||| PTE_U)), some newTable)

/-- The descent loop of `walk` over levels `[3, 2, 1]`, stopping at
`target_level` (vm.rs:155-179). -/
def walkLevels : List Nat → AllocM → Nat → Nat → Bool → Nat → AllocM × Option Nat
  | [], m, table, _, _, _ => (m, some table)
  | level :: rest, m, table, va, alloc, targetLevel =>
      if level ≤ targetLevel then (m, some table)
      else
        match walkStep m table va alloc level with
        | (m1, none) => (m1, none)
        | (m1, some t2) => walkLevels rest m1 t2 va alloc targetLevel

/-- `walk` (vm.rs:145-184): returns the state and the location (table
address, entry index) of the entry for `va` at `target_level`. -/
def walk (m : AllocM) (pgdir va : Nat) (alloc : Bool) (targetLevel : Nat) :
    AllocM × Option (Nat × Nat) :=
  match walkLevels [3, 2, 1] m pgdir va alloc targetLevel with
  | (m1, none) => (m1, none)
  | (m1, some table) =>
      let shift := 12 + 9 * targetLevel
      (m1, some (table, (va >>> shift) &&& 0x1FF))

/-- The loop of `map_pages` (vm.rs:109-141) with fuel: map `[addr, endAddr]`
page by page (2 MiB pages when alignment permits); an already-present entry
is an error (`false`), not a silent replace. -/
def mapPagesLoop : Nat → AllocM → Nat → Nat → Nat → Nat → Nat → AllocM × Bool
  | 0, m, _, _, _, _, _ => (m, false)
  | fuel + 1, m, pgdir, addr, endAddr, pa, perm =>
      if addr ≤ endAddr then
        let use2m := decide (addr % PG_SIZE_2M = 0) && decide (pa % PG_SIZE_2M = 0)
          && decide (addr + PG_SIZE_2M ≤ endAddr + PG_SIZE)
        let level := if use2m then 1 else 0
        match walk m pgdir addr true level with
        | (m1, none) => (m1, false)
        | (m1, some (table, idx)) =>
            let pte := m1.heap table idx
            if pteIsPresent pte then (m1, false)
            else
              let flags := perm ||| PTE_P ||| (if use2m then PTE_HUGE else 0)
              let m2 := heapSet m1 table idx (pteNew pa flags)
              let step := if use2m then PG_SIZE_2M else PG_SIZE
              mapPagesLoop fuel m2 pgdir (addr + step) endAddr (pa + step) perm
      else (m, true)

/-- `map_pages` (vm.rs:97-143). -/
def map_pages (fuel : Nat) (m : AllocM) (pgdir va pa sz perm : Nat) :
    AllocM × Bool :=
  mapPagesLoop fuel m pgdir (pgrounddown va) (pgrounddown (va + sz - 1)) pa perm

/-- The loop of `uvm_dealloc` (vm.rs:321-335) with fuel: for each mapped
page in `[a, oldV)`, `kfree` its frame and zero the entry. -/
def uvmDeallocLoop : Nat → AllocM → Nat → Nat → Nat → AllocM
  | 0, m, _, _, _ => m
  | fuel + 1, m, pgdir, a, oldV =>
      if a < oldV then
        let m2 :=
          match walk m pgdir a false 0 with
          | (m1, none) => m1
          | (m1, some (table, idx)) =>
              let pte := m1.heap table idx
              if pteIsPresent pte then
                let pa := pteAddr pte
                let m1b := if pa ≠ 0 then kfree m1 (p2v pa) else m1
                heapSet m1b table idx (pteNew 0 0)
              else m1
        uvmDeallocLoop fuel m2 pgdir (a + PG_SIZE) oldV
      else m

/-- `uvm_dealloc` (vm.rs:311-337). -/
def uvm_dealloc (fuel : Nat) (m : AllocM) (pgdir oldSz newSz : Nat) :
    AllocM × Nat :=
  if oldSz ≤ newSz then (m, oldSz)
  else (uvmDeallocLoop fuel m pgdir (pgroundup newSz) (pgroundup oldSz), newSz)

/-- The loop of `uvm_alloc` (vm.rs:284-307) with fuel: for every page in
`[pgroundup old_sz, new_sz)`, `kalloc` a frame (the source zeroes it again),
map it Writable|User; roll back through `uvm_dealloc` on failure. -/
def uvmAllocLoop : Nat → AllocM → Nat → Nat → Nat → Nat → AllocM × Option Nat
  | 0, m, _, _, _, _ => (m, none)
  | fuel + 1, m, pgdir, a, oldSz, newSz =>
      if a < newSz then
        match kalloc m with
        | none => ((uvm_dealloc fuel m pgdir a oldSz).1, none)
        | some (mem, m1) =>
            match map_pages fuel m1 pgdir a (v2p mem) PG_SIZE (PTE_W ||| PTE_U) with
            | (m2, false) =>
                ((uvm_dealloc fuel (kfree m2 mem) pgdir a oldSz).1, none)
            | (m2, true) => uvmAllocLoop fuel m2 pgdir (a + PG_SIZE) oldSz newSz
      else (m, some newSz)

/-- `uvm_alloc` (vm.rs:275-309). -/
def uvm_alloc (fuel : Nat) (m : AllocM) (pgdir oldSz newSz : Nat) :
    AllocM × Option Nat :=
  if newSz < oldSz then (m, some oldSz)
  else uvmAllocLoop fuel m pgdir (pgroundup oldSz) oldSz newSz

/-- `growproc` (growproc.rs:5-29) restricted to its size/allocator effect:
positive `n` grows through `uvm_alloc`, negative shrinks through
`uvm_dealloc` (`(sz as isize + n) as usize` is clamped here; the growth path
the claim is about never takes it). -/
def growproc (fuel : Nat) (m : AllocM) (pgdir sz : Nat) (n : Int) :
    AllocM × Option Nat :=
  if 0 < n then
    match uvm_alloc fuel m pgdir sz (sz + n.toNat) with
    | (m1, none) => (m1, none)
    | (m1, some newSz) => (m1, some newSz)
  else if n < 0 then
    let target := (Int.ofNat sz + n).toNat
    let r := uvm_dealloc fuel m pgdir sz target
    (r.1, some r.2)
  else (m, some sz)

/-- A concrete memory for the C6 run: eight free frames above `KERNBASE`
and an all-zero (empty) top-level user page table at `KERNBASE`. -/
def memC6 : AllocM :=
  { free := [KERNBASE + 0x1000, KERNBASE + 0x2000, KERNBASE + 0x3000,
             KERNBASE + 0x4000, KERNBASE + 0x5000, KERNBASE + 0x6000,
             KERNBASE + 0x7000, KERNBASE + 0x8000]
    heap := fun _ _ => 0 }

def pgdirC6 : Nat := KERNBASE

/-! ### `sys_open` and `filewrite` (src/kernel/src/syscall.rs, file.rs) -/

/-- Result of `sys_open`: the file table, the per-process fd table, and the
return value. -/
structure OpenResult where
  ft : FileTableM
  ofile : Fin 16 → Option (Fin 100)
  ret : Int

/-- `sys_open` (syscall.rs:216-297): `filealloc`; resolve the path
(`nameiRes` abstracts `namei`, rolled back to `refcnt = 0` on failure);
choose Device vs Inode by `i_mode & 0xF000 == 0x2000` (major from
`i_block[0] as u16`); then unconditionally `readable = true`,
`writable = false` — the `mode` argument is ignored (`if mode != 0 {}` is
empty); install into the first free fd slot, else roll back and return −1. -/
def sys_open (ft : FileTableM) (ofile : Fin 16 → Option (Fin 100))
    (nameiRes : Option InodeM) (mode : Nat) : OpenResult :=
  match filealloc ft with
  | none => ⟨ft, ofile, -1⟩
  | some (ft1, fi) =>
      match nameiRes with
      | none =>
          ⟨⟨Function.update ft1.files fi { ft1.files fi with refcnt := 0 }⟩, ofile, -1⟩
      | some ip =>
          let f0 := ft1.files fi
          let f1 :=
            if ip.i_mode &&& 0xF000 = 0x2000 then
              { f0 with ftype := FileTypeM.deviceT, major := ip.i_block0 % 65536 }
            else
              { f0 with ftype := FileTypeM.inodeT }
          let f2 := { f1 with ip := some ip, off := 0, readable := true, writable := false }
          let ft2 : FileTableM := ⟨Function.update ft1.files fi f2⟩
          match (List.finRange 16).find? (fun fd => (ofile fd).isNone) with
          | some fd => ⟨ft2, Function.update ofile fd (some fi), (fd.val : Int)⟩
          | none => ⟨⟨Function.update ft2.files fi { f2 with refcnt := 0 }⟩, ofile, -1⟩

/-- `filewrite` (file.rs:153-186): `-1` when not writable, else dispatch on
the file type.  The pipe / console / inode writers live in other modules;
their results are parameters, so the theorems hold for every behavior of
those callees. -/
def filewrite (pipewriteRes consolewriteRes writeiRes : Int) (f : FileM) :
    Int × FileM :=
  if f.writable = false then (-1, f)
  else
    match f.ftype with
    | .pipeT =>
        match f.pipeRef with
        | some _ => (pipewriteRes, f)
        | none => (-1, f)
    | .deviceT => if f.major = 1 then (consolewriteRes, f) else (-1, f)
    | .inodeT =>
        match f.ip with
        | some _ =>
            if 0 < writeiRes then (writeiRes, { f with off := f.off + writeiRes.toNat })
            else (writeiRes, f)
        | none => (-1, f)
    | .noneT => (-1, f)

/-- An empty file table, an empty fd table, and a regular-file inode for the
C10 witness run. -/
def ftEmpty : FileTableM := ⟨fun _ => fileNew⟩

def ofileEmpty : Fin 16 → Option (Fin 100) := fun _ => none

def inodeRegular : InodeM := { i_mode := 0x8000, i_block0 := 0 }

/-! ## Theorems -/

/-! ### C1 — spinlocks and interrupts -/

theorem spinInv_init (intr : Bool) : SpinInv (spinInit intr) := by
  constructor
  · exact Nat.le_refl 0
  · intro _; rfl

theorem pop_cli_some {c c2 : CpuIF} (hp : pop_cli c = some c2) :
    c.ifFlag = false ∧ c.ncli ≠ 0 ∧
      c2 = { ncli := c.ncli - 1, intena := c.intena,
             ifFlag := decide (c.ncli - 1 = 0) && c.intena } := by
  unfold pop_cli at hp
  by_cases h1 : c.ifFlag
  · simp [h1] at hp
  · by_cases h2 : c.ncli = 0
    · simp [h1, h2] at hp
    · simp [h1, h2] at hp
      exact ⟨by simp [h1], h2, hp.symm⟩

theorem spinInv_step {s t : SpinCpu} (hinv : SpinInv s) (hstep : SpinStep s t) :
    SpinInv t := by
  obtain ⟨hle, hif⟩ := hinv
  cases hstep with
  | lock =>
      refine ⟨Nat.succ_le_succ hle, ?_⟩
      intro h; simp [push_cli] at h
  | unlock c2 hh hp =>
      obtain ⟨_, hn0, hc2⟩ := pop_cli_some hp
      subst hc2
      refine ⟨Nat.sub_le_sub_right hle 1, ?_⟩
      intro h
      simp only [Bool.and_eq_true, decide_eq_true_eq] at h
      exact h.1
  | push_only =>
      refine ⟨Nat.le_succ_of_le hle, ?_⟩
      intro h; simp [push_cli] at h
  | pop_only c2 hh hp =>
      obtain ⟨_, hn0, hc2⟩ := pop_cli_some hp
      subst hc2
      refine ⟨Nat.le_sub_one_of_lt hh, ?_⟩
      intro h
      simp only [Bool.and_eq_true, decide_eq_true_eq] at h
      exact h.1

theorem spinInv_reach {intr : Bool} {s : SpinCpu} (h : SpinReach intr s) :
    SpinInv s := by
  induction h with
  | refl => exact spinInv_init intr
  | tail _ hstep ih => exact spinInv_step ih hstep

/-- C1: on every CPU, whenever at least one spinlock is held (a
`Spinlock::lock` completed, its guard not yet dropped), the hardware IF is 0
and `ncli` is positive; moreover a step re-enables IF (STI) only when it is a
`pop_cli` that brings `ncli` back to 0 with the saved `intena` bit set. -/
theorem C1_spinlock_interrupts_off (intr : Bool) (s : SpinCpu)
    (h : SpinReach intr s) :
    (0 < s.held → s.cpu.ifFlag = false ∧ 0 < s.cpu.ncli) ∧
      (∀ t : SpinCpu, SpinStep s t → s.cpu.ifFlag = false →
        t.cpu.ifFlag = true → t.cpu.ncli = 0 ∧ s.cpu.intena = true) := by
  obtain ⟨hle, hif⟩ := spinInv_reach h
  constructor
  · intro hheld
    have hn : 0 < s.cpu.ncli := Nat.lt_of_lt_of_le hheld hle
    refine ⟨?_, hn⟩
    by_contra hne
    have : s.cpu.ifFlag = true := by
      cases hch : s.cpu.ifFlag
      · exact absurd hch hne
      · rfl
    exact absurd (hif this) (Nat.pos_iff_ne_zero.mp hn)
  · intro t hstep hoff hon
    cases hstep with
    | lock => simp [push_cli] at hon
    | unlock c2 hh hp =>
        obtain ⟨_, hn0, hc2⟩ := pop_cli_some hp
        subst hc2
        simp only [Bool.and_eq_true, decide_eq_true_eq] at hon
        exact ⟨hon.1, hon.2⟩
    | push_only => simp [push_cli] at hon
    | pop_only c2 hh hp =>
        obtain ⟨_, hn0, hc2⟩ := pop_cli_some hp
        subst hc2
        simp only [Bool.and_eq_true, decide_eq_true_eq] at hon
        exact ⟨hon.1, hon.2⟩

/-- Witness for C1 at a concrete state: boot with interrupts on, take one
spinlock; the theorem yields IF = 0 and `ncli = 1 > 0`. -/
theorem C1_witness :
    (push_cli ⟨0, false, true⟩).ifFlag = false ∧
      0 < (push_cli ⟨0, false, true⟩).ncli :=
  (C1_spinlock_interrupts_off true ⟨push_cli ⟨0, false, true⟩, 1⟩
      (Relation.ReflTransGen.single (SpinStep.lock (spinInit true)))).1
    (by decide)

/-! ### C2 — pipe counter invariant -/

theorem pipeInv_step {p q : PipeData} (hinv : PipeInv p) (hstep : PipeStep p q) :
    PipeInv q := by
  obtain ⟨h1, h2⟩ := hinv
  cases hstep with
  | write n src hopen hn hfull =>
      have hlt : p.nwrite < p.nread + PIPESIZE := Nat.lt_of_le_of_ne h2 hfull
      constructor
      · exact Nat.le_trans h1 (Nat.le_add_right _ _)
      · show p.nwrite + min (min n (PIPESIZE - (p.nwrite - p.nread)))
            (PIPESIZE - p.nwrite % PIPESIZE) ≤ p.nread + PIPESIZE
        have hchunk : min (min n (PIPESIZE - (p.nwrite - p.nread)))
            (PIPESIZE - p.nwrite % PIPESIZE) ≤ PIPESIZE - (p.nwrite - p.nread) :=
          Nat.le_trans (Nat.min_le_left _ _) (Nat.min_le_right _ _)
        have : p.nwrite + (PIPESIZE - (p.nwrite - p.nread)) ≤ p.nread + PIPESIZE := by
          omega
        omega
  | read n hn hne =>
      constructor
      · show p.nread + min (min n (p.nwrite - p.nread))
            (PIPESIZE - p.nread % PIPESIZE) ≤ p.nwrite
        have hchunk : min (min n (p.nwrite - p.nread))
            (PIPESIZE - p.nread % PIPESIZE) ≤ p.nwrite - p.nread :=
          Nat.le_trans (Nat.min_le_left _ _) (Nat.min_le_right _ _)
        omega
      · show p.nwrite ≤ p.nread + min (min n (p.nwrite - p.nread))
            (PIPESIZE - p.nread % PIPESIZE) + PIPESIZE
        omega
  | close w =>
      unfold pipecloseStep
      cases w
      · simp only [Bool.false_eq_true, if_false]; exact ⟨h1, h2⟩
      · simp only [if_true]; exact ⟨h1, h2⟩

/-- C2: `0 ≤ nwrite − nread ≤ 512` holds for a fresh pipe and is preserved by
every atomic segment of `pipewrite` / `piperead` / `pipeclose`, hence it
holds before and after every pipe operation, for all requested byte counts
and all interleavings of sleeping and waking. -/
theorem C2_pipe_ring_invariant :
    PipeInv pipeNew ∧
      ∀ p q : PipeData, PipeInv p → Relation.ReflTransGen PipeStep p q →
        PipeInv q := by
  constructor
  · exact ⟨Nat.le_refl 0, Nat.zero_le PIPESIZE⟩
  · intro p q hinv hpath
    induction hpath with
    | refl => exact hinv
    | tail _ hstep ih => exact pipeInv_step ih hstep

/-- Witness for C2: from the fresh pipe, the closure instance at `pipeNew`
itself. -/
theorem C2_witness : PipeInv pipeNew :=
  C2_pipe_ring_invariant.2 pipeNew pipeNew C2_pipe_ring_invariant.1
    Relation.ReflTransGen.refl

/-! ### C3, C4, C5 — exit / fork / wait -/

theorem wakeup1_ofile (procs : Fin 64 → ProcessM) (chan : Option Nat)
    (i : Fin 64) : (wakeup1 procs chan i).ofile = (procs i).ofile := by
  unfold wakeup1
  cases chan with
  | none => rfl
  | some c =>
      by_cases h : (procs i).state = .SLEEPING ∧ (procs i).chan = c
      · simp [h]
      · simp [h]

/-- C3: evaluating `exit` — it leaves the file table and the exiting
process's `ofile` array completely untouched while marking it ZOMBIE, so no
open file is released via `fileclose`.  This contradicts the claim (and the
source's own commented-out "Close all open files" loop). -/
theorem C3_exit_does_not_close_files (procs : Fin 64 → ProcessM)
    (cur : Fin 64) (ft : FileTableM) :
    (exitStep procs cur ft).2 = ft ∧
      ((exitStep procs cur ft).1 cur).ofile = (procs cur).ofile ∧
      ((exitStep procs cur ft).1 cur).state = .ZOMBIE := by
  refine ⟨rfl, ?_, ?_⟩
  · show (Function.update (wakeup1 procs (procs cur).parent) cur
        { wakeup1 procs (procs cur).parent cur with state := .ZOMBIE } cur).ofile
      = (procs cur).ofile
    rw [Function.update_same]
    exact wakeup1_ofile procs (procs cur).parent cur
  · show (Function.update (wakeup1 procs (procs cur).parent) cur
        { wakeup1 procs (procs cur).parent cur with state := .ZOMBIE } cur).state
      = .ZOMBIE
    rw [Function.update_same]

/-- C4: evaluating `fork`'s hand-off of open files at a concrete state —
the child receives the parent's handle (fd 0 ↦ file 3) but the file table is
returned unchanged: file 3 still has `refcnt = 1`, not 2.  `filedup` (which
the claim requires, and which the source marks TODO) would have produced
`refcnt = 2`. -/
theorem C4_fork_does_not_increment_refcnt :
    (forkFinish procsC4 1 2 ftC4).2 = ftC4 ∧
      ((forkFinish procsC4 1 2 ftC4).1 2).ofile 0 = some 3 ∧
      ((forkFinish procsC4 1 2 ftC4).2.files 3).refcnt = 1 ∧
      (ftC4.files 3).refcnt = 1 ∧
      ((filedup ftC4 3).map (fun ft => (ft.files 3).refcnt)) = some 2 := by
  refine ⟨rfl, ?_, ?_, ?_, ?_⟩
  · show (Function.update procsC4 2 _ 2).ofile 0 = some 3
    rw [Function.update_same]
    rfl
  · rfl
  · rfl
  · rfl

/-- C5: evaluating `wait` at a state with a ZOMBIE child — it returns the
child's pid (7) and resets the slot to UNUSED with nulled `kstack`/`pgdir`,
but the frame allocator is returned with its free list unchanged (still
empty): neither the kernel-stack frame nor the user address space is freed,
contradicting the claim.  The −1 half of the claim does hold: with no
children, `wait` returns −1. -/
theorem C5_wait_does_not_free_frames :
    (waitIter procsC5 0 allocC5).2.1 = allocC5 ∧
      (waitIter procsC5 0 allocC5).2.2 = .found 7 ∧
      ((waitIter procsC5 0 allocC5).1 1).state = .UNUSED ∧
      ((waitIter procsC5 0 allocC5).1 1).kstack = 0 ∧
      ((waitIter procsC5 0 allocC5).1 1).pgdir = 0 ∧
      (waitIter procsC5 0 allocC5).2.1.free.length = allocC5.free.length ∧
      (waitIter procsNoKids 0 allocC5).2.2 = .retMinusOne := by
  refine ⟨?_, ?_, ?_, ?_, ?_, ?_, ?_⟩ <;> rfl

/-! ### C7 — buffer cache uniqueness -/

theorem bcacheInv_of_pairs {c c2 : BcacheM}
    (h : ∀ k : Fin 30, (c2.bufs k).dev = (c.bufs k).dev ∧
      (c2.bufs k).blockno = (c.bufs k).blockno)
    (hinv : BcacheInv c) : BcacheInv c2 := by
  intro i j hne hdev hbn
  have hres := hinv i j hne
    (by rw [← (h i).1, ← (h j).1]; exact hdev)
    (by rw [← (h i).2, ← (h j).2]; exact hbn)
  exact ⟨(h i).1.trans hres.1, (h i).2.trans hres.2⟩

theorem bget_inv {c : BcacheM} {dev bn : Nat} {c2 : BcacheM} {i : Fin 30}
    (h : bget c dev bn = some (c2, i)) (hinv : BcacheInv c) : BcacheInv c2 := by
  unfold bget at h
  cases hf : bgetFind c dev bn with
  | some k =>
      rw [hf] at h
      simp only [Option.some.injEq, Prod.mk.injEq] at h
      obtain ⟨hc2, _⟩ := h
      subst hc2
      apply bcacheInv_of_pairs ?_ hinv
      intro m
      by_cases hm : m = k
      · subst hm; simp [Function.update_same]
      · simp [Function.update_noteq hm]
  | none =>
      rw [hf] at h
      cases hg : bgetFree c with
      | none => rw [hg] at h; exact absurd h (by simp)
      | some k =>
          rw [hg] at h
          simp only [Option.some.injEq, Prod.mk.injEq] at h
          obtain ⟨hc2, _⟩ := h
          subst hc2
          unfold bgetFind at hf
          rw [List.find?_eq_none] at hf
          have hnot : ∀ m : Fin 30,
              (c.bufs m).dev ≠ dev ∨ (c.bufs m).blockno ≠ bn := by
            intro m
            have hm := hf m (List.mem_finRange m)
            by_contra hcon
            push_neg at hcon
            exact hm (by simp [hcon.1, hcon.2])
          intro a b hne hdev hbn
          dsimp only at hdev hbn ⊢
          by_cases ha : a = k <;> by_cases hb : b = k
          · exact absurd (ha.trans hb.symm) hne
          · subst ha
            rw [Function.update_same] at hdev hbn
            rw [Function.update_noteq hb] at hdev hbn
            rcases hnot b with hx | hx
            · exact absurd hdev.symm hx
            · exact absurd hbn.symm hx
          · subst hb
            rw [Function.update_noteq ha] at hdev hbn
            rw [Function.update_same] at hdev hbn
            rcases hnot a with hx | hx
            · exact absurd hdev hx
            · exact absurd hbn hx
          · rw [Function.update_noteq ha, Function.update_noteq hb] at hdev hbn
            have hres := hinv a b hne hdev hbn
            rw [Function.update_noteq ha]
            exact hres

theorem bread_inv {c : BcacheM} {dsk : Nat → Nat → Nat} {dev bn : Nat}
    {c2 : BcacheM} {i : Fin 30} (h : bread c dsk dev bn = some (c2, i))
    (hinv : BcacheInv c) : BcacheInv c2 := by
  unfold bread at h
  cases hb : bget c dev bn with
  | none => rw [hb] at h; exact absurd h (by simp)
  | some ci =>
      obtain ⟨c1, b⟩ := ci
      rw [hb] at h
      have hinv1 : BcacheInv c1 := bget_inv hb hinv
      by_cases hv : (c1.bufs b).valid
      · simp only [hv, if_true, Option.some.injEq, Prod.mk.injEq] at h
        obtain ⟨hc2, _⟩ := h
        subst hc2; exact hinv1
      · simp only [hv, if_false, Option.some.injEq, Prod.mk.injEq,
          Bool.false_eq_true] at h
        obtain ⟨hc2, _⟩ := h
        subst hc2
        apply bcacheInv_of_pairs ?_ hinv1
        intro m
        by_cases hm : m = b
        · subst hm; simp [Function.update_same]
        · simp [Function.update_noteq hm]

theorem bioStep_inv {c c2 : BcacheM} (hinv : BcacheInv c)
    (hstep : BioStep c c2) : BcacheInv c2 := by
  cases hstep with
  | bget_step dev bn c2 i h => exact bget_inv h hinv
  | bread_step dsk dev bn c2 i h => exact bread_inv h hinv
  | brelse_step b =>
      apply bcacheInv_of_pairs ?_ hinv
      intro m
      by_cases hm : m = b
      · subst hm; simp [brelse, Function.update_same]
      · simp [brelse, Function.update_noteq hm]
  | bwrite_step b =>
      apply bcacheInv_of_pairs ?_ hinv
      intro m
      by_cases hm : m = b
      · subst hm; simp [bwrite, Function.update_same]
      · simp [bwrite, Function.update_noteq hm]

theorem bcacheInv_init : BcacheInv binitState := by
  intro i j hne hdev hbn
  exact ⟨rfl, rfl⟩

/-- Counterexample to C7 as stated: in the initial state after `binit`,
slots 0 and 1 (indeed all 30 slots) carry the same `(dev, blockno)` pair
`(0, 0)`, so it is false that at most one slot carries any given pair. -/
theorem C7_counterexample :
    ¬ (∀ i j : Fin 30,
        (binitState.bufs i).dev = (binitState.bufs j).dev →
        (binitState.bufs i).blockno = (binitState.bufs j).blockno → i = j) := by
  intro hall
  have h01 : (0 : Fin 30) = 1 := hall 0 1 rfl rfl
  exact absurd h01 (by decide)

/-- C7 (amended): at every state reachable from `binit` by `bget` / `bread` /
`brelse` / `bwrite`, any two distinct slots carrying the same
`(dev, blockno)` pair carry the placeholder `(0, 0)`; equivalently, at most
one slot carries any pair other than `(0, 0)`. -/
theorem C7_buffer_cache_unique_keys (c : BcacheM) (h : BioReach c) :
    BcacheInv c := by
  induction h with
  | refl => exact bcacheInv_init
  | tail _ hstep ih => exact bioStep_inv ih hstep

/-- Witness for C7: at the initial state (trivially reachable), the theorem
applied to the duplicated slots 0 and 1 yields that their pair is `(0, 0)`. -/
theorem C7_witness :
    (binitState.bufs 0).dev = 0 ∧ (binitState.bufs 0).blockno = 0 :=
  C7_buffer_cache_unique_keys binitState Relation.ReflTransGen.refl 0 1
    (by decide) rfl rfl

/-! ### C8 — file-system magic -/

/-- Counterexample to C8 as stated: on a disk whose superblock magic is the
ext2 magic 0xEF53, `fsinit` panics (returns `none`) — initialization does
not succeed exactly when the magic is 0xEF53, because the source checks
`FSMAGIC = 0x10203040`, not the ext2 magic. -/
theorem C8_counterexample :
    fsinit diskMagicEF53 = none ∧ (readSB diskMagicEF53).magic = 0xEF53 := by
  constructor
  · rfl
  · rfl

/-- C8 (amended): `fsinit` reads the superblock from block 1 and succeeds
(does not panic) exactly when the superblock's magic field equals `FSMAGIC =
0x10203040` (the xv6-style magic, not the ext2 magic 0xEF53). -/
theorem C8_fsinit_checks_magic (dsk : Nat → Nat → Nat) :
    ((fsinit dsk).isSome ↔ (readSB dsk).magic = FSMAGIC) ∧
      FSMAGIC = 0x10203040 := by
  constructor
  · unfold fsinit
    by_cases h : (readSB dsk).magic = FSMAGIC
    · simp [h]
    · simp [h]
  · rfl

/-! ### C9 — virtio status byte -/

/-- C9: evaluating the completion path of `do_block_io` — the list of status
values it reports is empty for every status byte, non-zero included (the
failing input being a request completing with status 1, an I/O error), and
the resulting driver state does not depend on the status byte at all: the
driver never inspects or logs it, contradicting the claim. -/
theorem C9_status_byte_never_inspected (d : VirtioDriverM)
    (headIdx s1 s2 : Nat) :
    (completionCleanup d headIdx 1).2 = [] ∧
      (completionCleanup d headIdx s1).2 = [] ∧
      completionCleanup d headIdx s1 = completionCleanup d headIdx s2 := by
  exact ⟨rfl, rfl, rfl⟩

/-! ### C6 — user growth is eager, not lazy -/

theorem kalloc_length {m : AllocM} {a : Nat} {m1 : AllocM}
    (h : kalloc m = some (a, m1)) : m1.free.length + 1 = m.free.length := by
  unfold kalloc at h
  cases hf : m.free with
  | nil => rw [hf] at h; exact absurd h (by simp)
  | cons x rest =>
      rw [hf] at h
      simp only [Option.some.injEq, Prod.mk.injEq] at h
      obtain ⟨hx, hm⟩ := h
      subst hm
      rfl

theorem walkStep_length {m : AllocM} {table va : Nat} {alloc : Bool}
    {level : Nat} {m1 : AllocM} {r : Option Nat}
    (h : walkStep m table va alloc level = (m1, r)) :
    m1.free.length ≤ m.free.length := by
  unfold walkStep at h
  dsimp only at h
  split at h
  · injection h with h1 h2; subst h1; exact Nat.le_refl _
  · split at h
    · injection h with h1 h2; subst h1; exact Nat.le_refl _
    · split at h
      next hk => injection h with h1 h2; subst h1; exact Nat.le_refl _
      next nt m0 hk =>
          injection h with h1 h2
          subst h1
          have := kalloc_length hk
          show m0.free.length ≤ m.free.length
          omega

theorem walkLevels_length : ∀ (ls : List Nat) {m : AllocM} {table va : Nat}
    {alloc : Bool} {tl : Nat} {m1 : AllocM} {r : Option Nat},
    walkLevels ls m table va alloc tl = (m1, r) →
    m1.free.length ≤ m.free.length := by
  intro ls
  induction ls with
  | nil =>
      intro m table va alloc tl m1 r h
      unfold walkLevels at h
      injection h with h1 h2; subst h1; exact Nat.le_refl _
  | cons level rest ih =>
      intro m table va alloc tl m1 r h
      unfold walkLevels at h
      split at h
      · injection h with h1 h2; subst h1; exact Nat.le_refl _
      · split at h
        next m0 heq =>
            injection h with h1 h2; subst h1
            exact walkStep_length heq
        next m0 t2 heq =>
            exact Nat.le_trans (ih h) (walkStep_length heq)

theorem walk_length {m : AllocM} {pgdir va : Nat} {alloc : Bool} {tl : Nat}
    {m1 : AllocM} {r : Option (Nat × Nat)}
    (h : walk m pgdir va alloc tl = (m1, r)) :
    m1.free.length ≤ m.free.length := by
  unfold walk at h
  split at h
  next m0 heq =>
      injection h with h1 h2; subst h1
      exact walkLevels_length _ heq
  next m0 table heq =>
      injection h with h1 h2; subst h1
      exact walkLevels_length _ heq

theorem mapPagesLoop_length : ∀ {fuel : Nat} {m : AllocM}
    {pgdir addr endA pa perm : Nat} {m2 : AllocM} {ok : Bool},
    mapPagesLoop fuel m pgdir addr endA pa perm = (m2, ok) →
    m2.free.length ≤ m.free.length := by
  intro fuel
  induction fuel with
  | zero =>
      intro m pgdir addr endA pa perm m2 ok h
      unfold mapPagesLoop at h
      injection h with h1 h2; subst h1; exact Nat.le_refl _
  | succ fuel ih =>
      intro m pgdir addr endA pa perm m2 ok h
      unfold mapPagesLoop at h
      dsimp only at h
      split at h
      · split at h
        next m1 heq =>
            injection h with h1 h2; subst h1
            exact walk_length heq
        next m1 table idx heq =>
            split at h
            · injection h with h1 h2; subst h1
              exact walk_length heq
            · have h2 := ih h
              have h3 : m1.free.length ≤ m.free.length := walk_length heq
              have h4 : m2.free.length ≤ m1.free.length := h2
              exact Nat.le_trans h4 h3
      · injection h with h1 h2; subst h1; exact Nat.le_refl _

theorem uvmAllocLoop_length : ∀ {fuel : Nat} {m : AllocM}
    {pgdir a oldSz newSz : Nat} {m2 : AllocM} {sz : Nat},
    uvmAllocLoop fuel m pgdir a oldSz newSz = (m2, some sz) →
    m2.free.length ≤ m.free.length ∧
      (a < newSz → m2.free.length < m.free.length) := by
  intro fuel
  induction fuel with
  | zero =>
      intro m pgdir a oldSz newSz m2 sz h
      unfold uvmAllocLoop at h
      exact absurd h (by simp)
  | succ fuel ih =>
      intro m pgdir a oldSz newSz m2 sz h
      unfold uvmAllocLoop at h
      split at h
      next hlt =>
          split at h
          next hk => exact absurd h (by simp)
          next mem m1 hk =>
              split at h
              next m3 hmp => exact absurd h (by simp)
              next m3 hmp =>
                  have hrec := (ih h).1
                  unfold map_pages at hmp
                  have hm3 : m3.free.length ≤ m1.free.length :=
                    mapPagesLoop_length hmp
                  have hk1 := kalloc_length hk
                  constructor
                  · omega
                  · intro _; omega
      next hge =>
          injection h with h1 h2
          subst h1
          injection h2 with h3
          subst h3
          exact ⟨Nat.le_refl _, fun hlt2 => absurd hlt2 hge⟩

theorem pgroundup_ge (x : Nat) : x ≤ pgroundup x := by
  unfold pgroundup PG_SIZE
  omega

/-- C6 (amended): growth is eager, not lazy.  Whenever `uvm_alloc` (the
engine of `growproc` / `sbrk` with positive delta) succeeds and the grown
range `[pgroundup old_sz, new_sz)` contains at least one page boundary, the
frame allocator's free list strictly shrinks: `uvm_alloc` itself allocates
(and maps) frames for the new range rather than leaving them to the
page-fault handler.  (Only a growth that stays within the last already
allocated page is pure bookkeeping.) -/
theorem C6_uvm_alloc_allocates_frames (fuel : Nat) (m : AllocM)
    (pgdir oldSz newSz : Nat) (m2 : AllocM) (sz : Nat)
    (h : uvm_alloc fuel m pgdir oldSz newSz = (m2, some sz))
    (hcross : pgroundup oldSz < newSz) :
    m2.free.length < m.free.length := by
  unfold uvm_alloc at h
  split at h
  next hlt =>
      have := pgroundup_ge oldSz
      omega
  next hge =>
      exact (uvmAllocLoop_length h).2 hcross

/-- Counterexample to C6 as stated: growing an empty user image from size 0
to 4096 (one page) with 8 free frames succeeds but consumes four frames
(one data frame plus three page-table frames) and installs a present
page-table entry — `uvm_alloc` is not pure bookkeeping: it allocates and
maps physical frames for the new range eagerly. -/
theorem C6_counterexample :
    (uvm_alloc 16 memC6 pgdirC6 0 4096).2 = some 4096 ∧
      memC6.free.length = 8 ∧
      (uvm_alloc 16 memC6 pgdirC6 0 4096).1.free.length = 4 ∧
      pteIsPresent
        ((uvm_alloc 16 memC6 pgdirC6 0 4096).1.heap (KERNBASE + 0x4000) 0)
        = true := by
  refine ⟨?_, ?_, ?_, ?_⟩ <;> decide

/-- Witness for C6: the amended theorem applied to the concrete run of the
counterexample. -/
theorem C6_witness :
    (uvm_alloc 16 memC6 pgdirC6 0 4096).1.free.length < memC6.free.length := by
  have h2 : (uvm_alloc 16 memC6 pgdirC6 0 4096).2 = some 4096 := by decide
  refine C6_uvm_alloc_allocates_frames 16 memC6 pgdirC6 0 4096
    (uvm_alloc 16 memC6 pgdirC6 0 4096).1 4096 ?_ (by decide)
  rw [← h2]

/-! ### C10 — open ignores its mode argument -/

/-- C10: every successful `sys_open` installs a file with `readable = true`
and `writable = false`, whatever the `mode` argument was; consequently
`filewrite` on that file returns −1 for every behavior of the pipe, console
and inode writers. -/
theorem C10_open_ignores_mode (ft : FileTableM) (ofile : Fin 16 → Option (Fin 100))
    (ip : InodeM) (mode : Nat)
    (hret : 0 ≤ (sys_open ft ofile (some ip) mode).ret) :
    ∃ fd : Fin 16, ∃ fi : Fin 100,
      (sys_open ft ofile (some ip) mode).ofile fd = some fi ∧
      ((fd.val : Int) = (sys_open ft ofile (some ip) mode).ret) ∧
      ((sys_open ft ofile (some ip) mode).ft.files fi).readable = true ∧
      ((sys_open ft ofile (some ip) mode).ft.files fi).writable = false ∧
      ∀ pw cw wi : Int,
        (filewrite pw cw wi ((sys_open ft ofile (some ip) mode).ft.files fi)).1
          = -1 := by
  unfold sys_open at hret ⊢
  cases hfa : filealloc ft with
  | none =>
      rw [hfa] at hret
      dsimp only at hret
      exact absurd hret (by decide)
  | some p =>
      obtain ⟨ft1, fi⟩ := p
      rw [hfa] at hret
      dsimp only at hret ⊢
      cases hfd : (List.finRange 16).find? (fun fd => (ofile fd).isNone) with
      | none =>
          rw [hfd] at hret
          dsimp only at hret
          exact absurd hret (by decide)
      | some fd =>
          refine ⟨fd, fi, ?_, ?_, ?_, ?_, ?_⟩
          · dsimp only
            rw [Function.update_same]
          · rfl
          · dsimp only
            rw [Function.update_same]
          · dsimp only
            rw [Function.update_same]
          · intro pw cw wi
            dsimp only
            rw [Function.update_same]
            rfl

/-- Witness for C10: opening a regular file (i_mode 0x8000) with mode 511
(0o777) on empty tables returns fd 0, and the installed file is read-only. -/
theorem C10_witness :
    ∃ fd : Fin 16, ∃ fi : Fin 100,
      (sys_open ftEmpty ofileEmpty (some inodeRegular) 511).ofile fd = some fi ∧
      ((fd.val : Int) = (sys_open ftEmpty ofileEmpty (some inodeRegular) 511).ret) ∧
      ((sys_open ftEmpty ofileEmpty (some inodeRegular) 511).ft.files fi).readable
        = true ∧
      ((sys_open ftEmpty ofileEmpty (some inodeRegular) 511).ft.files fi).writable
        = false ∧
      ∀ pw cw wi : Int,
        (filewrite pw cw wi
          ((sys_open ftEmpty ofileEmpty (some inodeRegular) 511).ft.files fi)).1
          = -1 :=
  C10_open_ignores_mode ftEmpty ofileEmpty inodeRegular 511 (by decide)

end TinyOS
